import Mathlib

/-!
Shallow embedding of the Agent-Skills backend (src/backend/main.py).

Strings are modelled as `List Char`.  Python string primitives used by the
code (`str.split`, `str.replace`, `str.strip`, `str.lower`, the two regular
expressions over the `[USE_TOOL: name]` marker) are embedded as executable
Lean functions; the stores `tools_db` / `agents_db` are association lists
keyed by identifier strings; outbound provider calls are an oracle
parameter, so that a chat turn is a pure function of the stores, the
environment, the oracle and the request.
-/

namespace AgentSkills

/-- Python whitespace class used by `str.strip` and by `\s` in the marker
regular expression (ASCII fragment, which is all the code relies on). -/
def isPySpace (c : Char) : Bool :=
  c == ' ' || c == '\t' || c == '\n' || c == '\r' || c == '\x0b' || c == '\x0c'

/-- Python `str.lower` (ASCII-relevant fragment, via `Char.toLower`). -/
def lowerL (l : List Char) : List Char := l.map Char.toLower

/-- Python `str.strip()`: drop leading and trailing whitespace. -/
def pyStrip (l : List Char) : List Char :=
  ((l.dropWhile isPySpace).reverse.dropWhile isPySpace).reverse

/-- Fuelled worker for Python `str.split(sep)`: split on the leftmost
occurrence of `sep`, then continue after it.  One unit of fuel is spent per
step and every step consumes at least one character of the input, so fuel
`l.length` is always enough. -/
def tokensF (pat : List Char) : Nat → List Char → List (List Char)
  | 0, l => [l]
  | _ + 1, [] => [[]]
  | f + 1, c :: cs =>
    if pat ≠ [] ∧ pat.isPrefixOf (c :: cs) then
      [] :: tokensF pat f ((c :: cs).drop pat.length)
    else
      match tokensF pat f cs with
      | [] => [[]]
      | t :: ts => (c :: t) :: ts

/-- Python `l.split(pat)` (for the nonempty separators the code uses). -/
def tokens (pat l : List Char) : List (List Char) := tokensF pat l.length l

/-- Python `l.split(pat)[0]`. -/
def pySplitHead (pat l : List Char) : List Char := (tokens pat l).headI

/-- Python `l.split(pat)[-1]`. -/
def pySplitLast (pat l : List Char) : List Char := (tokens pat l).getLastD []

/-- Python `l.replace(pat, "")`, i.e. `"".join(l.split(pat))`. -/
def pyReplaceEmpty (pat l : List Char) : List Char := (tokens pat l).flatten

/-- The prefix of `l` strictly before the first occurrence of `pat`
(`l` itself when `pat` does not occur).  Used to state the first-occurrence
splitting contract of the spec. -/
def beforeFirst (pat : List Char) : List Char → List Char
  | [] => []
  | c :: cs => if pat.isPrefixOf (c :: cs) then [] else c :: beforeFirst pat cs

/-- The suffix of `l` strictly after the first occurrence of `pat`
(`[]` when `pat` does not occur). -/
def afterFirst (pat : List Char) : List Char → List Char
  | [] => []
  | c :: cs => if pat.isPrefixOf (c :: cs) then (c :: cs).drop pat.length
               else afterFirst pat cs

/-- The user-message cue the composer inserts and the invoker splits on. -/
def userCue : List Char := ("User:").toList

/-- The generation cue terminating every composed prompt. -/
def genCue : List Char := ("Assistant:").toList

/-- The `(system segment, user segment)` pair forwarded to a provider. -/
structure InvokeRequest where
  system_content : List Char
  user_content : List Char
deriving DecidableEq

/-- How `call_llm` actually carves a composed prompt into system and user
segments: `prompt.split("User:")[0].strip()` and
`prompt.split("User:")[-1].replace("Assistant:", "").strip()` (both provider
branches compute exactly these expressions). -/
def invokerSplit (prompt : List Char) : InvokeRequest :=
  ⟨pyStrip (pySplitHead userCue prompt),
   pyStrip (pyReplaceEmpty genCue (pySplitLast userCue prompt))⟩

/-- Modelled from the spec: "the Invoker MUST split on the first occurrence
of each" cue — the system segment is everything before the first user cue
and the user segment is the text delimited by the first occurrences of the
user cue and the generation cue (whitespace-trimmed like the code's). -/
def specSplit (prompt : List Char) : InvokeRequest :=
  ⟨pyStrip (beforeFirst userCue prompt),
   pyStrip (beforeFirst genCue (afterFirst userCue prompt))⟩

/-- Lowered head of the marker pattern `\[USE_TOOL:` (the regex is compiled
with `re.IGNORECASE`). -/
def useToolHead : List Char := ("[use_tool:").toList

/-- Split at the first `]`: `some (before, after)`, or `none` if absent.
Embeds the `[^\]]+\]` tail of the marker regex. -/
def splitAtRB : List Char → Option (List Char × List Char)
  | [] => none
  | c :: cs => if c = ']' then some ([], cs)
               else (splitAtRB cs).map (fun p => (c :: p.1, p.2))

/-- The text captured by the group `([^\]]+)` of
`\[USE_TOOL:\s*([^\]]+)\]` when the bracket content is `content`: the
greedy `\s*` eats the maximal whitespace prefix, backing off one character
when the remainder would be empty. -/
def captureOf (content : List Char) : List Char :=
  let r := content.dropWhile isPySpace
  if r.isEmpty then content.drop (content.length - 1) else r

/-- Leftmost-anchored match of `\[USE_TOOL:\s*([^\]]+)\]` (IGNORECASE):
`some (capturedName, restAfterMarker)` if a marker starts at the head of
`l`. -/
def markerMatch? (l : List Char) : Option (List Char × List Char) :=
  if useToolHead.isPrefixOf (lowerL l) then
    match splitAtRB (l.drop 10) with
    | some (content, rest) =>
      if content.isEmpty then none else some (captureOf content, rest)
    | none => none
  else none

/-- Fuelled worker for `re.sub(marker, '', l)`: scan left to right, drop
each leftmost non-overlapping match.  A match consumes at least 12
characters and a non-match step consumes one, so fuel `l.length` is
always enough. -/
def subMarkersF : Nat → List Char → List Char
  | 0, l => l
  | _ + 1, [] => []
  | f + 1, c :: cs =>
    match markerMatch? (c :: cs) with
    | some (_, rest) => subMarkersF f rest
    | none => c :: subMarkersF f cs

/-- Embeds `re.sub(r'\[USE_TOOL:\s*[^\]]+\]', '', l, flags=re.IGNORECASE)`. -/
def subMarkers (l : List Char) : List Char := subMarkersF l.length l

/-- Fuelled worker for `re.findall` over the marker pattern, collecting the
captured names of the leftmost non-overlapping matches in order. -/
def findMarkersF : Nat → List Char → List (List Char)
  | 0, _ => []
  | _ + 1, [] => []
  | f + 1, c :: cs =>
    match markerMatch? (c :: cs) with
    | some (name, rest) => name :: findMarkersF f rest
    | none => findMarkersF f cs

/-- Embeds `re.findall(r'\[USE_TOOL:\s*([^\]]+)\]', l, re.IGNORECASE)`. -/
def findMarkers (l : List Char) : List (List Char) := findMarkersF l.length l

/-- Holds (`true`) iff some substring of `l` matches the marker pattern. -/
def hasMarker : List Char → Bool
  | [] => false
  | c :: cs => (markerMatch? (c :: cs)).isSome || hasMarker cs

/-- The marker stripping applied to every visible chat response:
`re.sub(marker, '', resp, flags=re.IGNORECASE).strip()`. -/
def stripResponse (l : List Char) : List Char := pyStrip (subMarkers l)

/-- Python `pat in l` on strings: `pat` occurs as a contiguous substring. -/
def containsSub (pat : List Char) : List Char → Bool
  | [] => pat.isEmpty
  | c :: cs => pat.isPrefixOf (c :: cs) || containsSub pat cs

/-- The `LLMModel` pydantic model: provider selector plus model name. -/
structure LLMModel where
  provider : List Char
  model : List Char
deriving DecidableEq

/-- A record of `tools_db`. -/
structure ToolRec where
  id : List Char
  name : List Char
  description : List Char
  prompt_piece : List Char
deriving DecidableEq

/-- A record of `agents_db`. -/
structure AgentRec where
  id : List Char
  name : List Char
  llm_model : LLMModel
  system_prompt : List Char
  tool_ids : List (List Char)
deriving DecidableEq

/-- The request body of `POST /api/tools` and `PUT /api/tools/...`. -/
structure ToolCreate where
  name : List Char
  description : List Char
  prompt_piece : List Char
deriving DecidableEq

/-- The request body of `POST /api/agents` and `PUT /api/agents/...`. -/
structure AgentCreate where
  name : List Char
  llm_model : LLMModel
  system_prompt : List Char
  tool_ids : List (List Char)
deriving DecidableEq

/-- A Python dict keyed by strings, as an association list. -/
abbrev Store (α : Type) : Type := List (List Char × α)

/-- Embeds `db.get(k)` / `db[k]` after a membership test. -/
def dictGet : Store α → List Char → Option α
  | [], _ => none
  | (k', v) :: rest, k => if k' = k then some v else dictGet rest k

/-- Embeds `db[k] = v`: replace the value at an existing key in place, append a
fresh binding otherwise. -/
def dictSet : Store α → List Char → α → Store α
  | [], k, v => [(k, v)]
  | (k', v') :: rest, k, v =>
    if k' = k then (k, v) :: rest else (k', v') :: dictSet rest k v

/-- Embeds `del db[k]`. -/
def dictDel : Store α → List Char → Store α
  | [], _ => []
  | (k', v') :: rest, k => if k' = k then rest else (k', v') :: dictDel rest k

/-- The module-level mutable state: `tools_db` and `agents_db`. -/
structure St where
  tools : Store ToolRec
  agents : Store AgentRec

/-- The glue `"\n\nUser: "` before the user message in both composers. -/
def userGlue : List Char := ("\n\nUser: ").toList

/-- The tail `"\n\nAssistant:"` of both composed prompts. -/
def genTail : List Char := ("\n\nAssistant:").toList

/-- Header of the metadata tools section. -/
def availHeader : List Char := ("\n\nAvailable Tools:\n").toList

/-- Fixed marker-protocol instruction appended to a nonempty metadata tools
section. -/
def metaInstruction : List Char :=
  ("\n\nTo use a tool, include [USE_TOOL: ToolName] in your response. The tool\x27s detailed content will then be provided to you. Do not mention this format to the user.").toList

/-- Fixed instruction appended after a nonempty full tool-content section. -/
def contentInstruction : List Char :=
  ("\n\nUse the information provided above naturally in your response. Do not mention that you are using tools or referencing specific resources - just provide a helpful answer using the available information.").toList

/-- Embeds `build_prompt_with_tool_metadata`: lists `- name: description` for each
selected tool present in the store, never the `prompt_piece`. -/
def build_prompt_with_tool_metadata (tools : Store ToolRec)
    (system_prompt user_message : List Char) (tool_ids : List (List Char)) :
    List Char :=
  let tool_list := tool_ids.filterMap (fun tid =>
    (dictGet tools tid).map (fun t =>
      ("- ").toList ++ t.name ++ (": ").toList ++ t.description))
  let tools_section :=
    if tool_list.isEmpty then []
    else availHeader ++ List.intercalate (("\n").toList) tool_list ++ metaInstruction
  system_prompt ++ tools_section ++ userGlue ++ user_message ++ genTail

/-- Embeds `build_prompt_with_tool_content`: splices each selected tool's
`prompt_piece` verbatim under a `[name]` label. -/
def build_prompt_with_tool_content (tools : Store ToolRec)
    (system_prompt user_message : List Char) (tool_ids : List (List Char)) :
    List Char :=
  let tool_pieces := tool_ids.filterMap (fun tid =>
    (dictGet tools tid).map (fun t =>
      ("\n\n[").toList ++ t.name ++ ("]\n").toList ++ t.prompt_piece))
  let tools_section :=
    if tool_pieces.isEmpty then []
    else List.intercalate (("\n").toList) tool_pieces
  let instruction := if tools_section.isEmpty then [] else contentInstruction
  system_prompt ++ tools_section ++ instruction ++ userGlue ++ user_message ++ genTail

/-- Holds (`true`) iff the tool stored under `tid` has name `key` up to Python
`lower()` (scanning predicate of the marker-resolution loop). -/
def matchName (tools : Store ToolRec) (key tid : List Char) : Bool :=
  match dictGet tools tid with
  | some t => decide (lowerL t.name = key)
  | none => false

/-- Inner loop of marker resolution: scan the agent's `tool_ids` in order
and append every id whose tool name matches `key` and which is not yet in
`acc` (there is no break after the first match). -/
def addMatches (tools : Store ToolRec) (key : List Char) :
    List (List Char) → List (List Char) → List (List Char)
  | [], acc => acc
  | tid :: rest, acc =>
    match dictGet tools tid with
    | some t =>
      if lowerL t.name = key then
        if tid ∈ acc then addMatches tools key rest acc
        else addMatches tools key rest (acc ++ [tid])
      else addMatches tools key rest acc
    | none => addMatches tools key rest acc

/-- One outer-loop iteration of marker resolution: normalize the captured
name (`strip()` then `lower()`) and scan the agent's tool list. -/
def resolveStep (tools : Store ToolRec) (tool_ids : List (List Char))
    (acc : List (List Char)) (m : List Char) : List (List Char) :=
  addMatches tools (lowerL (pyStrip m)) tool_ids acc

/-- Steps 3-4 of the orchestrator: resolve the captured marker names (each
stripped then lowered) against the agent's tool set, accumulating
`requested_tool_ids`. -/
def resolveMarkers (tools : Store ToolRec) (tool_ids : List (List Char))
    (markers : List (List Char)) : List (List Char) :=
  markers.foldl (resolveStep tools tool_ids) []

/-- A Python exception value as observed by the `except` block: either a
fastapi `HTTPException` (status plus detail) or some other exception
carrying a message. -/
inductive PyErr where
  | httpExc (status : Nat) (detail : List Char)
  | exn (msg : List Char)
deriving DecidableEq

/-- Renders `str(e)` for the two exception shapes (starlette renders an
`HTTPException` as `"{status_code}: {detail}"`). -/
def strOfPyErr : PyErr → List Char
  | .httpExc s d => (Nat.repr s).toList ++ (": ").toList ++ d
  | .exn m => m

/-- An HTTP error response: status code and detail. -/
structure HErr where
  status : Nat
  detail : List Char
deriving DecidableEq

/-- The `except Exception` handler of `chat_with_agent`: classify `str(e)`
by substring tests on its lowercase form into 401 / 400 / 500. -/
def classifyExn (e : PyErr) : HErr :=
  let msg := strOfPyErr e
  let low := lowerL msg
  if (containsSub (("api_key").toList) low || containsSub (("authentication").toList) low) then
    ⟨401, ("API authentication failed: ").toList ++ msg ++ (". Please check your API key.").toList⟩
  else if containsSub (("model").toList) low then
    ⟨400, ("Model error: ").toList ++ msg ++ (". Please check the model name.").toList⟩
  else
    ⟨500, ("LLM API error: ").toList ++ msg⟩

/-- The configuration surface: the two provider credentials from the
process environment (`None` when unset). -/
structure Env where
  openai_key : Option (List Char)
  anthropic_key : Option (List Char)

/-- Embeds `not api_key or api_key == placeholder`. -/
def keyBad : Option (List Char) → List Char → Bool
  | none, _ => true
  | some k, placeholder => k.isEmpty || k == placeholder

/-- Placeholder value rejected for the OpenAI credential. -/
def openaiPlaceholder : List Char := ("your_openai_api_key_here").toList

/-- Placeholder value rejected for the Anthropic credential. -/
def anthropicPlaceholder : List Char := ("your_anthropic_api_key_here").toList

/-- Provider name `"openai"`. -/
def openaiName : List Char := ("openai").toList

/-- Provider name `"anthropic"`. -/
def anthropicName : List Char := ("anthropic").toList

/-- An outbound provider call: the oracle receives the model selector and
the split prompt and returns the completion text or raises. -/
def Invoker : Type := LLMModel → InvokeRequest → Except PyErr (List Char)

/-- Embeds `call_llm`: both recognized providers forward the cue-split prompt to
the transport; any other provider raises `HTTPException(400, "Unsupported
provider: ...")`. -/
def call_llm (invoke : Invoker) (m : LLMModel) (prompt : List Char) :
    Except PyErr (List Char) :=
  if m.provider = openaiName then invoke m (invokerSplit prompt)
  else if m.provider = anthropicName then invoke m (invokerSplit prompt)
  else .error (.httpExc 400 (("Unsupported provider: ").toList ++ m.provider))

/-- The response body of a successful chat turn. -/
structure ChatResult where
  response : List Char
  tools_used : List (List Char)
  tools_used_names : List (List Char)
  full_prompt : List Char
deriving DecidableEq

/-- Final response assembly: the visible text, the requested ids, their
names looked up in `tools_db`, and the prompt of the final call. -/
def mkChatResult (tools : Store ToolRec) (resp : List Char)
    (used : List (List Char)) (fp : List Char) : ChatResult :=
  ⟨resp, used, used.filterMap (fun tid => (dictGet tools tid).map (fun t => t.name)), fp⟩

/-- Embeds the chat endpoint — the two-pass tool-disclosure
orchestrator, returning the response (or HTTP error) together with the
resulting store state. -/
def chat_with_agent (st : St) (env : Env) (invoke : Invoker)
    (agent_id user_message : List Char) : Except HErr ChatResult × St :=
  match dictGet st.agents agent_id with
  | none => (.error ⟨404, ("Agent not found").toList⟩, st)
  | some agent =>
    let m := agent.llm_model
    if m.model.isEmpty || (pyStrip m.model).isEmpty then
      (.error ⟨400, ("Agent model is not set. Please select a model for this agent.").toList⟩, st)
    else
      let proceed : Except HErr ChatResult :=
        let agent_tool_ids := agent.tool_ids
        let initial_prompt :=
          build_prompt_with_tool_metadata st.tools agent.system_prompt user_message agent_tool_ids
        match call_llm invoke m initial_prompt with
        | .error e => .error (classifyExn e)
        | .ok initial_response =>
          let tool_markers := findMarkers initial_response
          let requested_tool_ids := resolveMarkers st.tools agent_tool_ids tool_markers
          if requested_tool_ids.isEmpty then
            .ok (mkChatResult st.tools (stripResponse initial_response) [] initial_prompt)
          else
            let final_prompt :=
              build_prompt_with_tool_content st.tools agent.system_prompt user_message requested_tool_ids
            match call_llm invoke m final_prompt with
            | .error e => .error (classifyExn e)
            | .ok final_response =>
              .ok (mkChatResult st.tools (stripResponse final_response) requested_tool_ids final_prompt)
      if m.provider = openaiName then
        if keyBad env.openai_key openaiPlaceholder then
          (.error ⟨400, ("OpenAI API key is not configured. Please set OPENAI_API_KEY in your .env file.").toList⟩, st)
        else (proceed, st)
      else if m.provider = anthropicName then
        if keyBad env.anthropic_key anthropicPlaceholder then
          (.error ⟨400, ("Anthropic API key is not configured. Please set ANTHROPIC_API_KEY in your .env file.").toList⟩, st)
        else (proceed, st)
      else (proceed, st)

/-- Embeds `POST /api/tools`: store a fresh record whose `id` field is the freshly
generated key. -/
def create_tool (st : St) (fresh : List Char) (t : ToolCreate) : St × ToolRec :=
  let r : ToolRec := ⟨fresh, t.name, t.description, t.prompt_piece⟩
  (⟨dictSet st.tools fresh r, st.agents⟩, r)

/-- Embeds the tool-update endpoint: 404 on a missing id, else overwrite the
record keyed by `tool_id` with `id = tool_id`. -/
def update_tool (st : St) (tool_id : List Char) (t : ToolCreate) :
    Except HErr ToolRec × St :=
  match dictGet st.tools tool_id with
  | none => (.error ⟨404, ("Tool not found").toList⟩, st)
  | some _ =>
    let r : ToolRec := ⟨tool_id, t.name, t.description, t.prompt_piece⟩
    (.ok r, ⟨dictSet st.tools tool_id r, st.agents⟩)

/-- Embeds the tool-delete endpoint. -/
def delete_tool (st : St) (tool_id : List Char) : Except HErr Unit × St :=
  match dictGet st.tools tool_id with
  | none => (.error ⟨404, ("Tool not found").toList⟩, st)
  | some _ => (.ok (), ⟨dictDel st.tools tool_id, st.agents⟩)

/-- Embeds `POST /api/agents`. -/
def create_agent (st : St) (fresh : List Char) (a : AgentCreate) : St × AgentRec :=
  let r : AgentRec := ⟨fresh, a.name, a.llm_model, a.system_prompt, a.tool_ids⟩
  (⟨st.tools, dictSet st.agents fresh r⟩, r)

/-- Embeds the agent-update endpoint. -/
def update_agent (st : St) (agent_id : List Char) (a : AgentCreate) :
    Except HErr AgentRec × St :=
  match dictGet st.agents agent_id with
  | none => (.error ⟨404, ("Agent not found").toList⟩, st)
  | some _ =>
    let r : AgentRec := ⟨agent_id, a.name, a.llm_model, a.system_prompt, a.tool_ids⟩
    (.ok r, ⟨st.tools, dictSet st.agents agent_id r⟩)

/-- Embeds the agent-delete endpoint. -/
def delete_agent (st : St) (agent_id : List Char) : Except HErr Unit × St :=
  match dictGet st.agents agent_id with
  | none => (.error ⟨404, ("Agent not found").toList⟩, st)
  | some _ => (.ok (), ⟨st.tools, dictDel st.agents agent_id⟩)

/-- Key-consistency of the tool store: each record's `id` equals its key. -/
def ToolStoreConsistent (ts : Store ToolRec) : Prop :=
  ∀ p ∈ ts, (p.2).id = p.1

/-- Key-consistency of the agent store. -/
def AgentStoreConsistent (as : Store AgentRec) : Prop :=
  ∀ p ∈ as, (p.2).id = p.1

/-- The metadata view of a stored tool: presence, name and description —
the only parts of the store the metadata composer reads. -/
def toolMeta? (tools : Store ToolRec) (tid : List Char) :
    Option (List Char × List Char) :=
  (dictGet tools tid).map (fun t => (t.name, t.description))

/-- Concrete tool store fixture: one tool named `Pricing`. -/
def pricingTools : Store ToolRec :=
  [((("t1").toList),
    ⟨("t1").toList, ("Pricing").toList, ("d").toList, ("p").toList⟩)]

/-- Concrete agent fixture: an OpenAI agent disclosing the `Pricing` tool. -/
def pricingAgent : AgentRec :=
  ⟨("a1").toList, ("A").toList, ⟨("openai").toList, ("gpt-4").toList⟩,
   ("S").toList, [("t1").toList]⟩

/-- Concrete store state for the successful-chat run. -/
def pricingSt : St := ⟨pricingTools, [((("a1").toList), pricingAgent)]⟩

/-- Environment with a configured OpenAI credential. -/
def okEnv : Env := ⟨some (("sk-test").toList), none⟩

/-- Transport double whose pass-1 and pass-2 completions both request the
`Pricing` tool via a marker. -/
def pricingInvoker : Invoker :=
  fun _ _ => .ok (("Sure. [USE_TOOL: Pricing]").toList)

/-- The chat response of the concrete successful run. -/
def pricingRun : Except HErr ChatResult :=
  (chat_with_agent pricingSt okEnv pricingInvoker (("a1").toList) (("hi").toList)).1

/-- The `ChatResult` extracted from the concrete successful run. -/
def pricingResult : ChatResult := pricingRun.toOption.getD ⟨[], [], [], []⟩

/-! ### Lemmas about Python `split` and the cue functions -/

lemma tokensF_ne_nil (pat : List Char) : ∀ (f : Nat) (l : List Char), tokensF pat f l ≠ [] := by
  intro f
  induction f with
  | zero => intro l; simp [tokensF]
  | succ f ih =>
    intro l
    cases l with
    | nil => simp [tokensF]
    | cons c cs =>
      rw [tokensF]
      split
      · simp
      · split
        · simp
        · simp

lemma tokensF_singleton (pat : List Char) :
    ∀ (f : Nat) (l x : List Char), tokensF pat f l = [x] → l = x := by
  intro f
  induction f with
  | zero => intro l x h; simpa [tokensF] using h
  | succ f ih =>
    intro l x h
    cases l with
    | nil => simp [tokensF] at h; simp [h]
    | cons c cs =>
      rw [tokensF] at h
      split at h
      · simp only [List.cons.injEq] at h
        exact absurd h.2 (tokensF_ne_nil pat f _)
      · split at h
        · next heq => exact absurd heq (tokensF_ne_nil pat f cs)
        · next t ts heq =>
          simp only [List.cons.injEq] at h
          obtain ⟨hx, hts⟩ := h
          subst hts
          have := ih cs t heq
          subst this
          exact hx

lemma tokensF_cons₂_beforeFirst (pat : List Char) (hp : pat ≠ []) :
    ∀ (f : Nat) (l a r : List Char) (rs : List (List Char)),
      tokensF pat f l = a :: r :: rs → beforeFirst pat l = a := by
  intro f
  induction f with
  | zero => intro l a r rs h; simp [tokensF] at h
  | succ f ih =>
    intro l a r rs h
    cases l with
    | nil => simp [tokensF] at h
    | cons c cs =>
      rw [tokensF] at h
      split at h
      · next hcond =>
        simp only [List.cons.injEq] at h
        rw [beforeFirst, if_pos hcond.2]
        exact h.1
      · next hcond =>
        have hnpre : ¬ pat.isPrefixOf (c :: cs) := by
          intro hpre
          exact hcond ⟨hp, hpre⟩
        split at h
        · next heq => exact absurd heq (tokensF_ne_nil pat f cs)
        · next t ts heq =>
          simp only [List.cons.injEq] at h
          obtain ⟨hx, hts⟩ := h
          rw [beforeFirst, if_neg hnpre]
          rw [hts] at heq
          rw [ih cs t r rs heq]
          exact hx

lemma tokensF_pair_afterFirst (pat : List Char) (hp : pat ≠ []) :
    ∀ (f : Nat) (l a b : List Char), tokensF pat f l = [a, b] → afterFirst pat l = b := by
  intro f
  induction f with
  | zero => intro l a b h; simp [tokensF] at h
  | succ f ih =>
    intro l a b h
    cases l with
    | nil => simp [tokensF] at h
    | cons c cs =>
      rw [tokensF] at h
      split at h
      · next hcond =>
        simp only [List.cons.injEq] at h
        rw [afterFirst, if_pos hcond.2]
        exact tokensF_singleton pat f _ b h.2
      · next hcond =>
        have hnpre : ¬ pat.isPrefixOf (c :: cs) := by
          intro hpre
          exact hcond ⟨hp, hpre⟩
        split at h
        · next heq => exact absurd heq (tokensF_ne_nil pat f cs)
        · next t ts heq =>
          simp only [List.cons.injEq] at h
          obtain ⟨hx, hts⟩ := h
          rw [afterFirst, if_neg hnpre]
          rw [hts] at heq
          exact ih cs t b heq

lemma tokens_pair_beforeFirst (pat : List Char) (hp : pat ≠ []) (l a r : List Char)
    (rs : List (List Char)) (h : tokens pat l = a :: r :: rs) : beforeFirst pat l = a :=
  tokensF_cons₂_beforeFirst pat hp l.length l a r rs h

lemma tokens_pair_afterFirst (pat : List Char) (hp : pat ≠ []) (l a b : List Char)
    (h : tokens pat l = [a, b]) : afterFirst pat l = b :=
  tokensF_pair_afterFirst pat hp l.length l a b h

/-- Claim C3 (counterexample): on a composed prompt containing the user cue
twice, `call_llm`'s split takes the user segment from the last `"User:"`
(yielding `"b"`), not from the first occurrences as the claim states
(which would yield `"a User: b"`). -/
theorem c3_counterexample :
    invokerSplit (("sys\n\nUser: a User: b\n\nAssistant:").toList)
      ≠ specSplit (("sys\n\nUser: a User: b\n\nAssistant:").toList) := by
  decide

/-- Claim C3 (amended): the system segment is always everything before the
first user cue, but the user segment is taken after the last user cue with
all generation cues removed; this coincides with splitting on the first
occurrence of each cue exactly when the composed prompt contains a single
user cue and a single, terminal generation cue after it — the framing
contract the composer is supposed to guarantee. -/
theorem c3_split_on_unique_cues (p a b u : List Char)
    (h1 : tokens userCue p = [a, b]) (h2 : tokens genCue b = [u, []]) :
    invokerSplit p = specSplit p := by
  have hu : userCue ≠ [] := by decide
  have hg : genCue ≠ [] := by decide
  have hb : beforeFirst userCue p = a := tokens_pair_beforeFirst userCue hu p a b [] h1
  have ha : afterFirst userCue p = b := tokens_pair_afterFirst userCue hu p a b h1
  have hbg : beforeFirst genCue b = u := tokens_pair_beforeFirst genCue hg b u [] [] h2
  unfold invokerSplit specSplit pySplitHead pySplitLast pyReplaceEmpty
  rw [h1, hb, ha, hbg]
  have hhead : ([a, b] : List (List Char)).headI = a := rfl
  have hlast : ([a, b] : List (List Char)).getLastD [] = b := rfl
  rw [hhead, hlast, h2]
  simp

/-- Witness for `c3_split_on_unique_cues` at a concrete composed prompt. -/
theorem c3_split_on_unique_cues_witness :
    invokerSplit (("S\n\nUser: hi\n\nAssistant:").toList)
      = specSplit (("S\n\nUser: hi\n\nAssistant:").toList) :=
  c3_split_on_unique_cues (("S\n\nUser: hi\n\nAssistant:").toList)
    (("S\n\n").toList) ((" hi\n\nAssistant:").toList) ((" hi\n\n").toList)
    (by decide) (by decide)

/-! ### Lemmas about `strip()` and marker stripping -/

lemma dropWhile_eq_cons_head_false {p : Char → Bool} :
    ∀ (l : List Char) {c : Char} {cs : List Char},
      l.dropWhile p = c :: cs → p c = false := by
  intro l
  induction l with
  | nil => intro c cs h; simp [List.dropWhile] at h
  | cons a t ih =>
    intro c cs h
    rw [List.dropWhile_cons] at h
    split at h
    · exact ih h
    · next hpa =>
      injection h with h1 h2
      subst h1
      simpa using hpa

lemma pyStrip_eq_rdropWhile (l : List Char) :
    pyStrip l = List.rdropWhile isPySpace (l.dropWhile isPySpace) := rfl

lemma pyStrip_idem (l : List Char) : pyStrip (pyStrip l) = pyStrip l := by
  have key : ∀ x : List Char,
      (List.rdropWhile isPySpace (x.dropWhile isPySpace)).dropWhile isPySpace
        = List.rdropWhile isPySpace (x.dropWhile isPySpace) := by
    intro x
    rcases hr : List.rdropWhile isPySpace (x.dropWhile isPySpace) with _ | ⟨c, cs⟩
    · simp
    · have hpre := List.rdropWhile_prefix isPySpace (x.dropWhile isPySpace)
      rw [hr] at hpre
      obtain ⟨t, ht⟩ := hpre
      have hx : x.dropWhile isPySpace = c :: (cs ++ t) := by
        rw [← ht]; rfl
      have hc : isPySpace c = false := dropWhile_eq_cons_head_false _ hx
      simp [List.dropWhile_cons, hc]
  rw [pyStrip_eq_rdropWhile l, pyStrip_eq_rdropWhile, key l,
    List.rdropWhile_idempotent]

lemma subMarkers_cons_nomatch {c : Char} {cs : List Char}
    (h : markerMatch? (c :: cs) = none) : subMarkers (c :: cs) = c :: subMarkers cs := by
  simp [subMarkers, List.length_cons, subMarkersF, h]

lemma subMarkers_of_no_marker : ∀ {l : List Char}, hasMarker l = false → subMarkers l = l := by
  intro l
  induction l with
  | nil => intro _; rfl
  | cons c cs ih =>
    intro h
    rw [hasMarker] at h
    simp only [Bool.or_eq_false_iff] at h
    have h1 : markerMatch? (c :: cs) = none := by
      rcases hm : markerMatch? (c :: cs) with _ | v
      · rfl
      · rw [hm] at h; simp at h
    rw [subMarkers_cons_nomatch h1, ih h.2]

/-- Claim C4 (counterexample): on `"[USE_TOOL[USE_TOOL: x]: y]"` removing
the inner marker concatenates the surrounding fragments into a fresh
marker, so one strip leaves `"[USE_TOOL: y]"`: stripping twice differs from
stripping once, and the once-stripped output still matches the marker
pattern. -/
theorem c4_counterexample :
    stripResponse (stripResponse (("[USE_TOOL[USE_TOOL: x]: y]").toList))
        ≠ stripResponse (("[USE_TOOL[USE_TOOL: x]: y]").toList)
      ∧ hasMarker (stripResponse (("[USE_TOOL[USE_TOOL: x]: y]").toList)) = true := by
  decide

/-- Claim C4 (amended): marker stripping is idempotent on every input whose
once-stripped output no longer matches the marker pattern; in general a
single strip can leave (at most shorter) marker occurrences formed by the
removal itself, so neither idempotence nor marker-freedom holds
unconditionally. -/
theorem c4_strip_idempotent_on_marker_free (s : List Char)
    (h : hasMarker (stripResponse s) = false) :
    stripResponse (stripResponse s) = stripResponse s := by
  unfold stripResponse at h ⊢
  rw [subMarkers_of_no_marker h]
  exact pyStrip_idem _

/-- Witness for `c4_strip_idempotent_on_marker_free` on a reply carrying
one well-formed marker. -/
theorem c4_strip_idempotent_on_marker_free_witness :
    stripResponse (stripResponse (("ok [USE_TOOL: Pricing] done").toList))
      = stripResponse (("ok [USE_TOOL: Pricing] done").toList) :=
  c4_strip_idempotent_on_marker_free (("ok [USE_TOOL: Pricing] done").toList) (by decide)

/-! ### C5: the metadata composer and `prompt_piece` -/

/-- Claim C5 (counterexample): a selected tool whose `prompt_piece` is the
string `"User:"` — text the metadata composer always emits as part of its
framing — occurs as a substring of the composed metadata prompt, so the
claim's universal substring-freedom is false. -/
theorem c5_counterexample :
    containsSub (("User:").toList)
      (build_prompt_with_tool_metadata
        [((("t1").toList),
          ⟨("t1").toList, ("N").toList, ("D").toList, ("User:").toList⟩)]
        (("S").toList) (("hi").toList) [("t1").toList]) = true := by
  decide

/-- Claim C5 (amended): the metadata composer never reads any tool's
`prompt_piece`: its output is identical for any two tool stores that agree
on presence, name and description of the selected ids, however their
`prompt_piece` fields differ.  (A `prompt_piece` can still occur as a
substring by colliding with other prompt text, as the counterexample
shows.) -/
theorem c5_metadata_independent_of_prompt_piece (ts1 ts2 : Store ToolRec)
    (sys user : List Char) (ids : List (List Char))
    (h : ∀ tid ∈ ids, toolMeta? ts1 tid = toolMeta? ts2 tid) :
    build_prompt_with_tool_metadata ts1 sys user ids
      = build_prompt_with_tool_metadata ts2 sys user ids := by
  unfold build_prompt_with_tool_metadata
  have hl : ids.filterMap (fun tid => (dictGet ts1 tid).map (fun t =>
        ("- ").toList ++ t.name ++ (": ").toList ++ t.description))
      = ids.filterMap (fun tid => (dictGet ts2 tid).map (fun t =>
        ("- ").toList ++ t.name ++ (": ").toList ++ t.description)) := by
    apply List.filterMap_congr
    intro tid htid
    have hm := h tid htid
    unfold toolMeta? at hm
    rcases h1 : dictGet ts1 tid with _ | t1 <;> rcases h2 : dictGet ts2 tid with _ | t2 <;>
      rw [h1, h2] at hm <;> simp at hm ⊢
    rw [hm.1, hm.2]
  rw [hl]

/-- Witness for `c5_metadata_independent_of_prompt_piece`: two stores equal
up to the `prompt_piece` field produce the same metadata prompt. -/
theorem c5_metadata_independent_of_prompt_piece_witness :
    build_prompt_with_tool_metadata
        [((("t1").toList),
          ⟨("t1").toList, ("N").toList, ("D").toList, ("p1").toList⟩)]
        (("S").toList) (("hi").toList) [("t1").toList]
      = build_prompt_with_tool_metadata
        [((("t1").toList),
          ⟨("t1").toList, ("N").toList, ("D").toList, ("p2").toList⟩)]
        (("S").toList) (("hi").toList) [("t1").toList] :=
  c5_metadata_independent_of_prompt_piece _ _ _ _ _ (by decide)

/-! ### Lemmas about marker resolution -/

lemma matchName_eq_true_iff {tools : Store ToolRec} {key tid : List Char} :
    matchName tools key tid = true
      ↔ ∃ t, dictGet tools tid = some t ∧ lowerL t.name = key := by
  unfold matchName
  rcases hg : dictGet tools tid with _ | t <;> simp

lemma addMatches_cons_none {tools : Store ToolRec} {key tid : List Char}
    {rest accL : List (List Char)}
    (hg : dictGet tools tid = none) :
    addMatches tools key (tid :: rest) accL = addMatches tools key rest accL := by
  simp only [addMatches, hg]

lemma addMatches_cons_old {tools : Store ToolRec} {key tid : List Char}
    {rest accL : List (List Char)} {t : ToolRec}
    (hg : dictGet tools tid = some t) (hname : lowerL t.name = key)
    (hin : tid ∈ accL) :
    addMatches tools key (tid :: rest) accL = addMatches tools key rest accL := by
  simp only [addMatches, hg]
  rw [if_pos hname, if_pos hin]

lemma addMatches_cons_new {tools : Store ToolRec} {key tid : List Char}
    {rest accL : List (List Char)} {t : ToolRec}
    (hg : dictGet tools tid = some t) (hname : lowerL t.name = key)
    (hin : tid ∉ accL) :
    addMatches tools key (tid :: rest) accL
      = addMatches tools key rest (accL ++ [tid]) := by
  simp only [addMatches, hg]
  rw [if_pos hname, if_neg hin]

lemma addMatches_cons_nomatch {tools : Store ToolRec} {key tid : List Char}
    {rest accL : List (List Char)} {t : ToolRec}
    (hg : dictGet tools tid = some t) (hname : ¬ lowerL t.name = key) :
    addMatches tools key (tid :: rest) accL = addMatches tools key rest accL := by
  simp only [addMatches, hg]
  rw [if_neg hname]

lemma mem_addMatches {tools : Store ToolRec} {key x : List Char} :
    ∀ {ids acc : List (List Char)}, x ∈ addMatches tools key ids acc →
      x ∈ acc ∨ x ∈ ids := by
  intro ids
  induction ids with
  | nil => intro acc h; exact Or.inl h
  | cons tid rest ih =>
    intro acc h
    have tail : x ∈ acc ∨ x ∈ rest → x ∈ acc ∨ x ∈ tid :: rest := by
      rintro (h' | h')
      · exact Or.inl h'
      · exact Or.inr (List.mem_cons_of_mem tid h')
    rcases hg : dictGet tools tid with _ | t
    · rw [addMatches_cons_none hg] at h
      exact tail (ih h)
    · by_cases hname : lowerL t.name = key
      · by_cases hin : tid ∈ acc
        · rw [addMatches_cons_old hg hname hin] at h
          exact tail (ih h)
        · rw [addMatches_cons_new hg hname hin] at h
          rcases ih h with h' | h'
          · rcases List.mem_append.mp h' with h'' | h''
            · exact Or.inl h''
            · exact Or.inr (List.mem_singleton.mp h'' ▸ List.mem_cons_self tid rest)
          · exact Or.inr (List.mem_cons_of_mem tid h')
      · rw [addMatches_cons_nomatch hg hname] at h
        exact tail (ih h)

lemma mem_addMatches_of_mem {tools : Store ToolRec} {key x : List Char} :
    ∀ {ids acc : List (List Char)}, x ∈ acc → x ∈ addMatches tools key ids acc := by
  intro ids
  induction ids with
  | nil => intro acc h; exact h
  | cons tid rest ih =>
    intro acc h
    rcases hg : dictGet tools tid with _ | t
    · rw [addMatches_cons_none hg]; exact ih h
    · by_cases hname : lowerL t.name = key
      · by_cases hin : tid ∈ acc
        · rw [addMatches_cons_old hg hname hin]; exact ih h
        · rw [addMatches_cons_new hg hname hin]
          exact ih (List.mem_append_left _ h)
      · rw [addMatches_cons_nomatch hg hname]; exact ih h

lemma mem_addMatches_of_match {tools : Store ToolRec} {key tid : List Char} :
    ∀ {ids acc : List (List Char)}, tid ∈ ids →
      matchName tools key tid = true → tid ∈ addMatches tools key ids acc := by
  intro ids
  induction ids with
  | nil => intro acc h _; cases h
  | cons t' rest ih =>
    intro acc hmem hmatch
    rcases List.mem_cons.mp hmem with rfl | hrest
    · obtain ⟨t, hg, hname⟩ := matchName_eq_true_iff.mp hmatch
      by_cases hin : tid ∈ acc
      · rw [addMatches_cons_old hg hname hin]
        exact mem_addMatches_of_mem hin
      · rw [addMatches_cons_new hg hname hin]
        exact mem_addMatches_of_mem
          (List.mem_append_right _ (List.mem_singleton_self tid))
    · rcases hg : dictGet tools t' with _ | t
      · rw [addMatches_cons_none hg]; exact ih hrest hmatch
      · by_cases hname : lowerL t.name = key
        · by_cases hin : t' ∈ acc
          · rw [addMatches_cons_old hg hname hin]; exact ih hrest hmatch
          · rw [addMatches_cons_new hg hname hin]; exact ih hrest hmatch
        · rw [addMatches_cons_nomatch hg hname]; exact ih hrest hmatch

lemma addMatches_eq_of_closed {tools : Store ToolRec} {key : List Char} :
    ∀ {ids acc : List (List Char)},
      (∀ tid ∈ ids, matchName tools key tid = true → tid ∈ acc) →
      addMatches tools key ids acc = acc := by
  intro ids
  induction ids with
  | nil => intro acc _; rfl
  | cons tid rest ih =>
    intro acc hcl
    have hrest : ∀ t' ∈ rest, matchName tools key t' = true → t' ∈ acc :=
      fun t' ht' => hcl t' (List.mem_cons_of_mem tid ht')
    rcases hg : dictGet tools tid with _ | t
    · rw [addMatches_cons_none hg]; exact ih hrest
    · by_cases hname : lowerL t.name = key
      · have hin : tid ∈ acc :=
          hcl tid (List.mem_cons_self tid rest)
            (matchName_eq_true_iff.mpr ⟨t, hg, hname⟩)
        rw [addMatches_cons_old hg hname hin]; exact ih hrest
      · rw [addMatches_cons_nomatch hg hname]; exact ih hrest

lemma addMatches_nodup {tools : Store ToolRec} {key : List Char} :
    ∀ {ids acc : List (List Char)}, acc.Nodup → (addMatches tools key ids acc).Nodup := by
  intro ids
  induction ids with
  | nil => intro acc h; exact h
  | cons tid rest ih =>
    intro acc h
    rcases hg : dictGet tools tid with _ | t
    · rw [addMatches_cons_none hg]; exact ih h
    · by_cases hname : lowerL t.name = key
      · by_cases hin : tid ∈ acc
        · rw [addMatches_cons_old hg hname hin]; exact ih h
        · rw [addMatches_cons_new hg hname hin]
          refine ih ?_
          simp [List.nodup_append, h, hin]
      · rw [addMatches_cons_nomatch hg hname]; exact ih h

lemma addMatches_eq_filter {tools : Store ToolRec} {key : List Char} :
    ∀ {ids acc : List (List Char)}, ids.Nodup → (∀ tid ∈ ids, tid ∉ acc) →
      addMatches tools key ids acc
        = acc ++ ids.filter (fun tid => matchName tools key tid) := by
  intro ids
  induction ids with
  | nil => intro acc _ _; simp [addMatches]
  | cons tid rest ih =>
    intro acc hnd hdisj
    have hndr : rest.Nodup := (List.nodup_cons.mp hnd).2
    have htid_rest : tid ∉ rest := (List.nodup_cons.mp hnd).1
    have htid_acc : tid ∉ acc := hdisj tid (List.mem_cons_self tid rest)
    have hdisj_rest : ∀ t' ∈ rest, t' ∉ acc :=
      fun t' ht' => hdisj t' (List.mem_cons_of_mem tid ht')
    rcases hg : dictGet tools tid with _ | t
    · have hm : matchName tools key tid = false := by unfold matchName; rw [hg]
      rw [addMatches_cons_none hg, ih hndr hdisj_rest]
      simp [List.filter_cons, hm]
    · by_cases hname : lowerL t.name = key
      · have hm : matchName tools key tid = true :=
          matchName_eq_true_iff.mpr ⟨t, hg, hname⟩
        rw [addMatches_cons_new hg hname htid_acc]
        have hdisj' : ∀ t' ∈ rest, t' ∉ acc ++ [tid] := by
          intro t' ht'
          simp only [List.mem_append, List.mem_singleton]
          rintro (h' | rfl)
          · exact hdisj_rest t' ht' h'
          · exact htid_rest ht'
        rw [ih hndr hdisj']
        simp [List.filter_cons, hm]
      · have hm : matchName tools key tid = false := by
          unfold matchName; rw [hg]; exact decide_eq_false hname
        rw [addMatches_cons_nomatch hg hname, ih hndr hdisj_rest]
        simp [List.filter_cons, hm]

lemma resolveStep_eq (tools : Store ToolRec) (ids acc : List (List Char))
    (m : List Char) :
    resolveStep tools ids acc m = addMatches tools (lowerL (pyStrip m)) ids acc := rfl

lemma mem_resolveFoldl {tools : Store ToolRec} {ids : List (List Char)} {x : List Char} :
    ∀ {ms acc : List (List Char)},
      x ∈ ms.foldl (resolveStep tools ids) acc → x ∈ acc ∨ x ∈ ids := by
  intro ms
  induction ms with
  | nil => intro acc h; exact Or.inl h
  | cons m rest ih =>
    intro acc h
    rw [List.foldl_cons] at h
    rcases ih h with h' | h'
    · exact mem_addMatches h'
    · exact Or.inr h'

lemma mem_resolveFoldl_of_mem {tools : Store ToolRec} {ids : List (List Char)}
    {x : List Char} :
    ∀ {ms acc : List (List Char)},
      x ∈ acc → x ∈ ms.foldl (resolveStep tools ids) acc := by
  intro ms
  induction ms with
  | nil => intro acc h; exact h
  | cons m rest ih =>
    intro acc h
    rw [List.foldl_cons]
    exact ih (mem_addMatches_of_mem h)

lemma mem_resolveFoldl_of_marker {tools : Store ToolRec} {ids : List (List Char)}
    {tid m : List Char} :
    ∀ {ms acc : List (List Char)}, m ∈ ms → tid ∈ ids →
      matchName tools (lowerL (pyStrip m)) tid = true →
      tid ∈ ms.foldl (resolveStep tools ids) acc := by
  intro ms
  induction ms with
  | nil => intro acc h _ _; cases h
  | cons m' rest ih =>
    intro acc hm hid hmatch
    rw [List.foldl_cons]
    rcases List.mem_cons.mp hm with rfl | hrest
    · exact mem_resolveFoldl_of_mem (mem_addMatches_of_match hid hmatch)
    · exact ih hrest hid hmatch

lemma resolveFoldl_nodup {tools : Store ToolRec} {ids : List (List Char)} :
    ∀ {ms acc : List (List Char)}, acc.Nodup →
      (ms.foldl (resolveStep tools ids) acc).Nodup := by
  intro ms
  induction ms with
  | nil => intro acc h; exact h
  | cons m rest ih =>
    intro acc h
    rw [List.foldl_cons]
    exact ih (addMatches_nodup h)

lemma resolveMarkers_subset {tools : Store ToolRec} {ids : List (List Char)}
    {ms : List (List Char)} : ∀ x ∈ resolveMarkers tools ids ms, x ∈ ids := by
  intro x hx
  rcases mem_resolveFoldl hx with h | h
  · cases h
  · exact h

/-! ### C2: one marker matching two tools -/

/-- Claim C2 (counterexample): with two distinct tools whose names differ
only in case, a single `Pricing` marker resolves to BOTH tool ids (the scan
has no break after the first match), not to exactly the first one. -/
theorem c2_counterexample :
    resolveMarkers
        [((("t1").toList),
          ⟨("t1").toList, ("Pricing").toList, ("d1").toList, ("p1").toList⟩),
         ((("t2").toList),
          ⟨("t2").toList, ("pricing").toList, ("d2").toList, ("p2").toList⟩)]
        [("t1").toList, ("t2").toList] [("Pricing").toList]
        = [("t1").toList, ("t2").toList]
      ∧ resolveMarkers
        [((("t1").toList),
          ⟨("t1").toList, ("Pricing").toList, ("d1").toList, ("p1").toList⟩),
         ((("t2").toList),
          ⟨("t2").toList, ("pricing").toList, ("d2").toList, ("p2").toList⟩)]
        [("t1").toList, ("t2").toList] [("Pricing").toList]
        ≠ [("t1").toList] := by
  decide

/-- Claim C2 (amended): a single marker resolves to the ids of EVERY tool
of the agent whose name matches case-insensitively, in `tool_ids` scan
order — so the first matching tool's id comes first, but later matching
tools are added too, not dropped. -/
theorem c2_marker_resolves_to_all_matches (tools : Store ToolRec)
    (ids : List (List Char)) (m : List Char) (hnd : ids.Nodup) :
    resolveMarkers tools ids [m]
      = ids.filter (fun tid => matchName tools (lowerL (pyStrip m)) tid) := by
  unfold resolveMarkers
  rw [List.foldl_cons, List.foldl_nil, resolveStep_eq]
  rw [addMatches_eq_filter hnd (fun tid _ h => (List.not_mem_nil tid) h)]
  simp

/-- Witness for `c2_marker_resolves_to_all_matches` on the one-tool store. -/
theorem c2_marker_resolves_to_all_matches_witness :
    resolveMarkers pricingTools [("t1").toList] [("Pricing").toList]
      = List.filter
          (fun tid => matchName pricingTools (lowerL (pyStrip (("Pricing").toList))) tid)
          [("t1").toList] :=
  c2_marker_resolves_to_all_matches pricingTools [("t1").toList]
    (("Pricing").toList) (by decide)

/-! ### C6: duplicate markers collapse -/

/-- Claim C6: `requested_tool_ids` never contains a tool id twice, and a
marker whose normalized name (whitespace-trimmed, lowercased) already
occurred earlier in the reply is a no-op: removing the duplicate marker
leaves the resolved sequence unchanged, so each tool sits at the position
its first marker occurrence gave it. -/
theorem c6_dedup_first_occurrence (tools : Store ToolRec) (ids : List (List Char))
    (ms₁ ms₂ : List (List Char)) (m m' : List Char)
    (h1 : m' ∈ ms₁) (h2 : lowerL (pyStrip m') = lowerL (pyStrip m)) :
    resolveMarkers tools ids (ms₁ ++ m :: ms₂) = resolveMarkers tools ids (ms₁ ++ ms₂)
      ∧ (resolveMarkers tools ids (ms₁ ++ m :: ms₂)).Nodup := by
  have hnd : (resolveMarkers tools ids (ms₁ ++ m :: ms₂)).Nodup :=
    resolveFoldl_nodup List.nodup_nil
  refine ⟨?_, hnd⟩
  unfold resolveMarkers
  rw [List.foldl_append, List.foldl_append, List.foldl_cons]
  have hstep : resolveStep tools ids (ms₁.foldl (resolveStep tools ids) []) m
      = ms₁.foldl (resolveStep tools ids) [] := by
    rw [resolveStep_eq]
    apply addMatches_eq_of_closed
    intro tid htid hmatch
    rw [← h2] at hmatch
    exact mem_resolveFoldl_of_marker h1 htid hmatch
  rw [hstep]

/-- Witness for `c6_dedup_first_occurrence`: markers `" Pricing"` and
`"PRICING"` for the same tool. -/
theorem c6_dedup_first_occurrence_witness :
    (resolveMarkers pricingTools [("t1").toList]
        ([(" Pricing").toList] ++ (("PRICING").toList) :: [])
      = resolveMarkers pricingTools [("t1").toList] ([(" Pricing").toList] ++ []))
    ∧ (resolveMarkers pricingTools [("t1").toList]
        ([(" Pricing").toList] ++ (("PRICING").toList) :: [])).Nodup :=
  c6_dedup_first_occurrence pricingTools [("t1").toList]
    [(" Pricing").toList] [] (("PRICING").toList) ((" Pricing").toList)
    (by decide) (by decide)

/-! ### C1: `tools_used` is drawn from the agent's `tool_ids` -/

/-- Claim C1: whenever a chat turn returns a successful result, every id in
`tools_used` is one of the agent's `tool_ids` as read from the store at
call time, no matter what marker names the pass-1 reply contained. -/
theorem c1_tools_used_subset (st : St) (env : Env) (invoke : Invoker)
    (aid msg : List Char) (agent : AgentRec) (r : ChatResult)
    (hA : dictGet st.agents aid = some agent)
    (hok : (chat_with_agent st env invoke aid msg).1 = .ok r) :
    r.tools_used ⊆ agent.tool_ids := by
  unfold chat_with_agent at hok
  rw [hA] at hok
  dsimp only at hok
  split at hok
  · simp at hok
  · split at hok
    · split at hok
      · simp at hok
      · dsimp only at hok
        split at hok
        · simp at hok
        · split at hok
          · simp only [Except.ok.injEq] at hok
            subst hok
            simp [mkChatResult]
          · split at hok
            · simp at hok
            · simp only [Except.ok.injEq] at hok
              subst hok
              intro x hx
              exact resolveMarkers_subset x (by simpa [mkChatResult] using hx)
    · split at hok
      · split at hok
        · simp at hok
        · dsimp only at hok
          split at hok
          · simp at hok
          · split at hok
            · simp only [Except.ok.injEq] at hok
              subst hok
              simp [mkChatResult]
            · split at hok
              · simp at hok
              · simp only [Except.ok.injEq] at hok
                subst hok
                intro x hx
                exact resolveMarkers_subset x (by simpa [mkChatResult] using hx)
      · dsimp only at hok
        split at hok
        · simp at hok
        · split at hok
          · simp only [Except.ok.injEq] at hok
            subst hok
            simp [mkChatResult]
          · split at hok
            · simp at hok
            · simp only [Except.ok.injEq] at hok
              subst hok
              intro x hx
              exact resolveMarkers_subset x (by simpa [mkChatResult] using hx)

/-- Witness for `c1_tools_used_subset`: the concrete successful two-pass
run requesting the `Pricing` tool. -/
theorem c1_tools_used_subset_witness :
    pricingResult.tools_used ⊆ pricingAgent.tool_ids :=
  c1_tools_used_subset pricingSt okEnv pricingInvoker
    (("a1").toList) (("hi").toList) pricingAgent pricingResult rfl rfl

/-! ### C7: unsupported provider -/

/-- Claim C7 (code evaluated at the failing input): for an agent whose
provider is `"gemini"` the turn makes no outbound call (the result is the
same for every transport oracle), but the surfaced error is HTTP 500 — the
`HTTPException(400)` raised inside `call_llm` is caught by the blanket
`except Exception` in `chat_with_agent` and re-wrapped as
`"LLM API error: 400: Unsupported provider: gemini"` — not the 400
precondition error the claim (and `call_llm` itself) intend. -/
theorem c7_unsupported_provider_surfaces_500 :
    ∀ invoke : Invoker,
      (chat_with_agent
          ⟨[], [((("a1").toList),
            ⟨("a1").toList, ("A").toList, ⟨("gemini").toList, ("g").toList⟩,
             ("S").toList, []⟩)]⟩
          ⟨none, none⟩ invoke (("a1").toList) (("hi").toList)).1
        = .error ⟨500, ("LLM API error: 400: Unsupported provider: gemini").toList⟩ :=
  fun _ => rfl

/-! ### C8: missing or placeholder credential -/

/-- Claim C8: when the agent's provider is `"openai"` or `"anthropic"` and
the corresponding credential is unset, empty or the known placeholder, the
chat fails with a 400 precondition error and the transport oracle is never
consulted: the outcome is identical for every oracle. -/
theorem c8_missing_credential_fails_fast (st : St) (env : Env)
    (aid msg : List Char) (agent : AgentRec)
    (hA : dictGet st.agents aid = some agent)
    (hm : (agent.llm_model.model.isEmpty || (pyStrip agent.llm_model.model).isEmpty) = false)
    (hp : (agent.llm_model.provider = openaiName
            ∧ keyBad env.openai_key openaiPlaceholder = true)
        ∨ (agent.llm_model.provider = anthropicName
            ∧ keyBad env.anthropic_key anthropicPlaceholder = true)) :
    (∀ invoke invoke' : Invoker,
        chat_with_agent st env invoke aid msg = chat_with_agent st env invoke' aid msg)
      ∧ ∃ d, ∀ invoke : Invoker,
        (chat_with_agent st env invoke aid msg).1 = .error ⟨400, d⟩ := by
  rcases hp with ⟨hprov, hkey⟩ | ⟨hprov, hkey⟩
  · have hval : ∀ invoke : Invoker, chat_with_agent st env invoke aid msg
        = (.error ⟨400, ("OpenAI API key is not configured. Please set OPENAI_API_KEY in your .env file.").toList⟩, st) := by
      intro invoke
      unfold chat_with_agent
      rw [hA]
      dsimp only
      rw [hm]
      simp only [Bool.false_eq_true, if_false]
      rw [hprov, if_pos rfl, if_pos hkey]
    exact ⟨fun i i' => by rw [hval i, hval i'],
      ⟨_, fun invoke => by rw [hval invoke]⟩⟩
  · have hval : ∀ invoke : Invoker, chat_with_agent st env invoke aid msg
        = (.error ⟨400, ("Anthropic API key is not configured. Please set ANTHROPIC_API_KEY in your .env file.").toList⟩, st) := by
      intro invoke
      unfold chat_with_agent
      rw [hA]
      dsimp only
      rw [hm]
      simp only [Bool.false_eq_true, if_false]
      rw [hprov, if_neg (by decide : ¬ anthropicName = openaiName),
        if_pos rfl, if_pos hkey]
    exact ⟨fun i i' => by rw [hval i, hval i'],
      ⟨_, fun invoke => by rw [hval invoke]⟩⟩

/-- Witness for `c8_missing_credential_fails_fast`: the `Pricing` agent
with no OpenAI key in the environment. -/
theorem c8_missing_credential_fails_fast_witness :
    ∃ d, ∀ invoke : Invoker,
      (chat_with_agent pricingSt ⟨none, some (("k").toList)⟩ invoke
          (("a1").toList) (("hi").toList)).1 = .error ⟨400, d⟩ :=
  (c8_missing_credential_fails_fast pricingSt ⟨none, some (("k").toList)⟩
    (("a1").toList) (("hi").toList) pricingAgent rfl (by decide)
    (Or.inl ⟨rfl, rfl⟩)).2

/-! ### C9: a chat turn never mutates the stores -/

/-- Claim C9: for every store state, environment, oracle and request —
whether the turn ends in a result or an error — `chat_with_agent` leaves
`tools_db` and `agents_db` exactly as it found them. -/
theorem c9_chat_preserves_stores (st : St) (env : Env) (invoke : Invoker)
    (aid msg : List Char) : (chat_with_agent st env invoke aid msg).2 = st := by
  unfold chat_with_agent
  split
  · rfl
  · dsimp only
    split
    · rfl
    · split
      · split
        · rfl
        · rfl
      · split
        · split
          · rfl
          · rfl
        · rfl

/-! ### C10: key-consistency of the stores -/

lemma dictSet_keyField {α : Type} (f : α → List Char) :
    ∀ (db : Store α) (k : List Char) (v : α),
      (∀ p ∈ db, f p.2 = p.1) → f v = k → ∀ p ∈ dictSet db k v, f p.2 = p.1 := by
  intro db
  induction db with
  | nil =>
    intro k v _ hv p hp
    rw [dictSet] at hp
    rcases List.mem_singleton.mp hp with rfl
    exact hv
  | cons kv rest ih =>
    obtain ⟨k', v'⟩ := kv
    intro k v hdb hv p hp
    rw [dictSet] at hp
    split at hp
    · rcases List.mem_cons.mp hp with rfl | h'
      · exact hv
      · exact hdb _ (List.mem_cons_of_mem _ h')
    · rcases List.mem_cons.mp hp with rfl | h'
      · exact hdb _ (List.mem_cons_self _ _)
      · exact ih k v (fun q hq => hdb q (List.mem_cons_of_mem _ hq)) hv p h'

lemma dictDel_subset {α : Type} :
    ∀ (db : Store α) (k : List Char), ∀ p ∈ dictDel db k, p ∈ db := by
  intro db
  induction db with
  | nil => intro k p hp; rw [dictDel] at hp; cases hp
  | cons kv rest ih =>
    obtain ⟨k', v'⟩ := kv
    intro k p hp
    rw [dictDel] at hp
    split at hp
    · exact List.mem_cons_of_mem _ hp
    · rcases List.mem_cons.mp hp with rfl | h'
      · exact List.mem_cons_self _ _
      · exact List.mem_cons_of_mem _ (ih k p h')

/-- Claim C10: every create, update and delete endpoint, on both stores,
preserves the invariant that each stored record's `id` field equals the key
it is stored under (the error paths leave the stores untouched). -/
theorem c10_key_consistency (st : St) (hT : ToolStoreConsistent st.tools)
    (hAg : AgentStoreConsistent st.agents) :
    (∀ fresh t, ToolStoreConsistent (create_tool st fresh t).1.tools
        ∧ AgentStoreConsistent (create_tool st fresh t).1.agents)
    ∧ (∀ tid t, ToolStoreConsistent (update_tool st tid t).2.tools
        ∧ AgentStoreConsistent (update_tool st tid t).2.agents)
    ∧ (∀ tid, ToolStoreConsistent (delete_tool st tid).2.tools
        ∧ AgentStoreConsistent (delete_tool st tid).2.agents)
    ∧ (∀ fresh a, ToolStoreConsistent (create_agent st fresh a).1.tools
        ∧ AgentStoreConsistent (create_agent st fresh a).1.agents)
    ∧ (∀ aid a, ToolStoreConsistent (update_agent st aid a).2.tools
        ∧ AgentStoreConsistent (update_agent st aid a).2.agents)
    ∧ (∀ aid, ToolStoreConsistent (delete_agent st aid).2.tools
        ∧ AgentStoreConsistent (delete_agent st aid).2.agents) := by
  refine ⟨?_, ?_, ?_, ?_, ?_, ?_⟩
  · intro fresh t
    exact ⟨dictSet_keyField ToolRec.id st.tools fresh _ hT rfl, hAg⟩
  · intro tid t
    unfold update_tool
    rcases hg : dictGet st.tools tid with _ | told
    · exact ⟨hT, hAg⟩
    · exact ⟨dictSet_keyField ToolRec.id st.tools tid _ hT rfl, hAg⟩
  · intro tid
    unfold delete_tool
    rcases hg : dictGet st.tools tid with _ | told
    · exact ⟨hT, hAg⟩
    · exact ⟨fun p hp => hT p (dictDel_subset st.tools tid p hp), hAg⟩
  · intro fresh a
    exact ⟨hT, dictSet_keyField AgentRec.id st.agents fresh _ hAg rfl⟩
  · intro aid a
    unfold update_agent
    rcases hg : dictGet st.agents aid with _ | aold
    · exact ⟨hT, hAg⟩
    · exact ⟨hT, dictSet_keyField AgentRec.id st.agents aid _ hAg rfl⟩
  · intro aid
    unfold delete_agent
    rcases hg : dictGet st.agents aid with _ | aold
    · exact ⟨hT, hAg⟩
    · exact ⟨hT, fun p hp => hAg p (dictDel_subset st.agents aid p hp)⟩

/-- Witness for `c10_key_consistency`: creating a tool in the empty state
yields a key-consistent tool store. -/
theorem c10_key_consistency_witness :
    ToolStoreConsistent
      (create_tool ⟨[], []⟩ (("t1").toList)
        ⟨("n").toList, ("d").toList, ("p").toList⟩).1.tools :=
  ((c10_key_consistency ⟨[], []⟩
      (fun p hp => absurd hp (List.not_mem_nil p))
      (fun p hp => absurd hp (List.not_mem_nil p))).1
    (("t1").toList) ⟨("n").toList, ("d").toList, ("p").toList⟩).1

end AgentSkills
